import Mathlib

set_option linter.unusedVariables false

/-!
Shallow embedding of the AnythingToLLMs.txt core: the token counter
(src/tools/token_counter.py), the token budget analyzer
(src/tools/token_analyzer.py) and the background job orchestrator
(src/api/services/conversion_service.py), together with theorems that
settle the specification claims about them.

Python floats that appear only as the exact constants 0.25, 0.8 and 0.2 in
comparisons against integer token counts are modelled over ℚ.
-/

/-- Exceptions raised by the analyzer entry points: `ValueError` on empty
input and `ZeroDivisionError` from the unguarded percentage computation. -/
inductive AnalyzerError
  | invalidArgument
  | zeroDivision
  deriving DecidableEq, Repr

/-- The static model limit table `self.model_limits` from
`TokenAnalyzer.__init__`, in Python insertion order. -/
def modelLimits : List (String × ℕ) :=
  [ ("gpt-3.5-turbo", 16385),
    ("gpt-3.5-turbo-16k", 16385),
    ("gpt-4", 8192),
    ("gpt-4-32k", 32768),
    ("gpt-4o", 128000),
    ("gpt-4o-mini", 128000),
    ("gpt-4.1", 1047576),
    ("gpt-4.1-mini", 1047576),
    ("gpt-4.1-nano-2025-04-14", 1047576),
    ("gpt-4.1-nano", 1047576),
    ("gpt-4.5", 1047576),
    ("claude-3-opus", 200000),
    ("claude-3-sonnet", 200000),
    ("claude-3.5-sonnet", 200000),
    ("claude-3-haiku", 200000),
    ("anthropic.claude-3-haiku", 200000),
    ("gemini-pro", 32000),
    ("gemini-flash", 32000),
    ("gemini-1.5-pro", 1000000),
    ("gemini-1.5-flash", 1000000),
    ("llama-3-70b", 8192),
    ("llama-3-8b", 8192),
    ("mistral-large", 32768),
    ("mistral-medium", 32768) ]

/-- The `TokenAnalyzer` object: only `model_name` varies, the tables are
the fixed literals from `__init__`. -/
structure TokenAnalyzer where
  model_name : String
  deriving DecidableEq, Repr

/-- Python `dict.get(key, default)` on an association list. -/
def lookupD {α : Type} (l : List (String × α)) (k : String) (d : α) : α :=
  (l.lookup k).getD d

/-- `total_tokens = sum(sections_dict.values())`. -/
def sumTokens (sections_dict : List (String × ℕ)) : ℕ :=
  (sections_dict.map Prod.snd).sum

/-- `model_limit = self.model_limits.get(self.model_name, 8000)`. -/
def modelLimitOf (a : TokenAnalyzer) : ℕ :=
  lookupD modelLimits a.model_name 8000

/-- Stable insertion step: the new element goes after every element the
comparison accepts, which matches the stability of Python `list.sort`. -/
def insertStable {α : Type} (le : α → α → Bool) (x : α) : List α → List α
  | [] => [x]
  | y :: ys => if le y x then y :: insertStable le x ys else x :: y :: ys

/-- Stable sort by a boolean comparison, modelling Python `list.sort(key=...)`
(and `sorted(..., reverse=True)` when the comparison is flipped). -/
def stableSort {α : Type} (le : α → α → Bool) (l : List α) : List α :=
  l.foldl (fun acc x => insertStable le x acc) []

/-- Python `str.lower` modelled as per-character (ASCII) lowering. -/
def strLower (s : String) : String := String.mk (s.data.map Char.toLower)

/-- Python `str.endswith` on the character lists. -/
def strEndsWith (s suffix : String) : Bool := decide (suffix.data <:+ s.data)

/-- Ascending comparison on the token/limit component (`key=lambda x: x[1]`). -/
def leSnd (x y : String × ℕ) : Bool := decide (x.2 ≤ y.2)

/-- Descending comparison on the token component (`key=..., reverse=True`). -/
def geSnd (x y : String × ℕ) : Bool := decide (y.2 ≤ x.2)

/-- Message `f"O documento excede o limite do modelo {model} de {limit} tokens."`. -/
def exceedsMsg (a : TokenAnalyzer) : String :=
  "O documento excede o limite do modelo " ++ a.model_name ++ " de " ++
    toString (modelLimitOf a) ++ " tokens."

/-- Message `f"Considere usar {best_model} que suporta até {best_limit} tokens."`. -/
def useModelMsg (bm : String) (bl : ℕ) : String :=
  "Considere usar " ++ bm ++ " que suporta até " ++ toString bl ++ " tokens."

/-- Message recommending splitting when no known model is large enough. -/
def splitMsg : String :=
  "O documento excede o limite de todos os modelos conhecidos. Considere dividir em múltiplos documentos."

/-- Message `f"Use o perfil 'llms-min' para reduzir para ~{content_size} tokens."`. -/
def minProfileMsg (content_size : ℕ) : String :=
  "Use o perfil \x27llms-min\x27 para reduzir para ~" ++ toString content_size ++ " tokens."

/-- Message naming the most expensive sections. -/
def expensiveMsg (expensive_sections : List String) : String :=
  "As seções que mais consomem tokens são: " ++
    String.intercalate ", " expensive_sections ++ "."

/-- Message recommending chunking for expensive sections. -/
def chunkingMsg : String :=
  "Considere dividir o documento ou usar um chunking com tamanho menor."

/-- Message `f"O documento está dentro do limite de {limit} tokens do modelo {model}."`. -/
def withinMsg (a : TokenAnalyzer) : String :=
  "O documento está dentro do limite de " ++ toString (modelLimitOf a) ++
    " tokens do modelo " ++ a.model_name ++ "."

/-- The near-limit warning emitted when `total_tokens > model_limit * 0.8`. -/
def nearLimitMsg : String :=
  "O documento está próximo do limite. Considere monitorar o crescimento do documento."

/-- The raw-section warning emitted when `"# Raw"` consumes more than 20%. -/
def rawMsg : String :=
  "A seção Raw consome muitos tokens. Considere usar \x27--profile llms-min\x27 para excluí-la."

/-- The analysis value object returned by `analyze_sections`. -/
structure Analysis where
  total_tokens : ℕ
  model_limit : ℕ
  exceeds_limit : Bool
  percentages : List (String × ℚ)
  expensive_sections : List String
  recommendations : List String
  deriving DecidableEq, Repr

/-- `TokenAnalyzer.analyze_sections` (token_analyzer.py lines 63-150).
A Python `dict` of sections is embedded as an association list in insertion
order.  Raising `ValueError` on an empty dict and the `ZeroDivisionError`
from `(v / total_tokens) * 100` when the counts sum to zero (re-raised by
the blanket `except ... raise`) surface as `Except.error`. -/
def TokenAnalyzer.analyze_sections (a : TokenAnalyzer)
    (sections_dict : List (String × ℕ)) : Except AnalyzerError Analysis :=
  if sections_dict.isEmpty then .error .invalidArgument
  else
    let total_tokens := sumTokens sections_dict
    let model_limit := modelLimitOf a
    if total_tokens = 0 then .error .zeroDivision
    else
      let percentages :=
        sections_dict.map (fun kv => (kv.1, ((kv.2 : ℚ) / total_tokens) * 100))
      let sorted_sections := stableSort geSnd sections_dict
      let exceeds_limit : Bool := decide (model_limit < total_tokens)
      let expensive_sections :=
        (sorted_sections.filter
          (fun kv => decide ((model_limit : ℚ) * (25 / 100) < (kv.2 : ℚ)))).map Prod.fst
      let recommendations :=
        if exceeds_limit then
          let suitable_models := modelLimits.filter (fun ml => decide (total_tokens ≤ ml.2))
          let afterModel :=
            if suitable_models.isEmpty then [splitMsg]
            else
              match stableSort leSnd suitable_models with
              | [] => []
              | (bm, bl) :: _ => [useModelMsg bm bl]
          let contentRec :=
            if sections_dict.any (fun kv => strEndsWith (strLower kv.1) "content") then
              let content_size :=
                ((sections_dict.find? (fun kv => strEndsWith (strLower kv.1) "content")).map
                  Prod.snd).getD 0
              if content_size < model_limit then [minProfileMsg content_size] else []
            else []
          let expRec :=
            if expensive_sections.isEmpty then []
            else [expensiveMsg expensive_sections, chunkingMsg]
          [exceedsMsg a] ++ afterModel ++ contentRec ++ expRec
        else
          let nearRec :=
            if decide ((model_limit : ℚ) * (8 / 10) < (total_tokens : ℚ)) then
              [nearLimitMsg]
            else []
          let rawRec :=
            match sections_dict.lookup "# Raw" with
            | some v =>
              if decide ((total_tokens : ℚ) * (2 / 10) < (v : ℚ)) then [rawMsg] else []
            | none => []
          [withinMsg a] ++ nearRec ++ rawRec
      .ok
        { total_tokens := total_tokens
          model_limit := model_limit
          exceeds_limit := exceeds_limit
          percentages := percentages
          expensive_sections := expensive_sections
          recommendations := recommendations }

/-- One Python regex line-match for `r'^#+\s+.*$'` with `re.MULTILINE`: a
line made of one or more `#` followed by a whitespace character. -/
def isHeadingLine (l : String) : Bool :=
  let cs := l.toList
  let hashes := cs.takeWhile (fun c => c == '#')
  let rest := cs.dropWhile (fun c => c == '#')
  !hashes.isEmpty &&
    match rest with
    | c :: _ => c.isWhitespace
    | [] => false

/-- The paragraph loop of `_extract_content_sample`: append paragraphs while
the accumulated sample stays under `max_size`, stopping at the first one
that does not fit (Python `break`). -/
def addParas (sample : List String) : List String → ℕ → List String
  | [], _ => sample
  | p :: ps, max_size =>
    if (String.intercalate "\n" sample).length + p.length < max_size then
      addParas (sample ++ [p]) ps max_size
    else sample

/-- `TokenAnalyzer._extract_content_sample` (token_analyzer.py lines 198-261).
Raises `ValueError` on empty content; the body is pure string processing, so
the internal `except` fallback path cannot trigger in the embedding. -/
def extract_content_sample (content : String)
    (section_map : List (String × String)) (max_size : ℕ) :
    Except AnalyzerError String :=
  if content = "" then .error .invalidArgument
  else
    let sample1 := section_map.foldl
      (fun acc kv =>
        if kv.1.startsWith "# Title" || kv.1.startsWith "# Date" ||
            kv.1.startsWith "# Source" then
          acc ++ [kv.1, kv.2.take 1000]
        else acc) []
    let sample2 :=
      match section_map.lookup "# Content" with
      | some content_text =>
        if content_text ≠ "" then
          addParas sample1 ((content_text.splitOn "\n\n").take 20) max_size
        else sample1
      | none => sample1
    let sample3 :=
      match section_map.lookup "# Summary" with
      | some s => if s ≠ "" then sample2 ++ [s] else sample2
      | none => sample2
    let total_len := (String.intercalate "\n" sample3).length
    let sample4 :=
      if total_len * 2 < max_size then
        sample3 ++ section_map.foldl
          (fun acc kv =>
            if kv.1 == "# Content" || kv.1 == "# Tables" then
              acc ++ (((kv.2.splitOn "\n").filter isHeadingLine).take 100)
            else acc) []
      else sample3
    let result := String.intercalate "\n" sample4
    .ok (if max_size < result.length then result.take max_size else result)

/-- The content-type indicator table from `_detect_content_type`, in Python
insertion order. -/
def indicators : List (String × List String) :=
  [ ("artigo_cientifico",
      ["abstract", "metodologia", "referências", "citações", "estudo",
       "pesquisa", "doi", "análise", "conclusão", "bibliografia"]),
    ("literatura",
      ["capítulo", "personagens", "história", "narrativa", "romance",
       "conto", "autor", "obra", "livro", "ficção"]),
    ("documento_tecnico",
      ["manual", "instruções", "especificações", "requisitos",
       "configuração", "implementação", "sistema", "software", "hardware",
       "versão"]),
    ("conteudo_educacional",
      ["aprendizagem", "exercícios", "habilidades", "competências", "bncc",
       "currículo", "educação", "ensino", "aluno", "professor",
       "disciplina", "conhecimento", "pedagógico", "escolar", "escola",
       "avaliação", "estudante", "ministério da educação", "diretrizes"]),
    ("documento_legal",
      ["lei", "artigo", "parágrafo", "norma", "normativo", "regulamento",
       "jurídico", "contrato", "decreto", "legislação", "cláusula",
       "judicial", "direito"]),
    ("email_comunicacao",
      ["assunto", "prezado", "cordialmente", "atenciosamente", "reunião",
       "informamos", "contato", "prezada", "encaminho",
       "conforme solicitado"]) ]

/-- The labels of the indicator table in definition order. -/
def indicatorLabels : List String := indicators.map Prod.fst

/-- Python substring containment `needle in hay`. -/
def containsSub (hay needle : String) : Bool :=
  decide (needle.toList <:+: hay.toList)

/-- Add `d` points to the score of label `k` (Python `scores[k] += d`). -/
def bump (k : String) (d : ℕ) (m : List (String × ℕ)) : List (String × ℕ) :=
  m.map (fun p => if p.1 == k then (p.1, p.2 + d) else p)

/-- The score dictionary built by `_detect_content_type`: keyword counts on
the lower-cased sample plus the fixed structural bonuses.  `str.lower` is
modelled by `String.toLower` (ASCII lowering). -/
def scoresList (content : String) (section_map : List (String × String)) :
    List (String × ℕ) :=
  let normalized := strLower content
  let base := indicators.map
    (fun li => (li.1, (li.2.filter (fun kw => containsSub normalized (strLower kw))).length))
  let s1 :=
    if containsSub content "BNCC" || containsSub content "Base Nacional" ||
        containsSub content "Ministério da Educação" then
      bump "conteudo_educacional" 10 base
    else base
  let s2 :=
    if containsSub normalized "código" || containsSub normalized "programa" ||
        containsSub normalized "função" || containsSub normalized "biblioteca" then
      bump "documento_tecnico" 5 s1
    else s1
  let s3 :=
    if containsSub content "§" || containsSub content "Art." ||
        containsSub content "Artigo" then
      bump "documento_legal" 5 s2
    else s2
  let s4 :=
    if (section_map.lookup "# Abstract").isSome ||
        (section_map.lookup "# Introduction").isSome ||
        (section_map.lookup "# Methodology").isSome then
      bump "artigo_cientifico" 8 s3
    else s3
  s4

/-- `scores.get(label)` with the dict built by `_detect_content_type`. -/
def scoreOf (content : String) (section_map : List (String × String))
    (label : String) : ℕ :=
  ((scoresList content section_map).lookup label).getD 0

/-- Python `max(keys, key=score)`: fold keeping the first maximum. -/
def pickMax (score : String → ℕ) (b : String) : List String → String
  | [] => b
  | x :: xs => pickMax score (if score b < score x then x else b) xs

/-- `TokenAnalyzer._detect_content_type` (token_analyzer.py lines 263-329).
Returns `none` for empty content, otherwise the first label of maximal
score if that score exceeds 1. -/
def detect_content_type (content : String)
    (section_map : List (String × String)) : Option String :=
  if content = "" then none
  else
    let sc := scoresList content section_map
    match sc.map Prod.fst with
    | [] => none
    | k :: ks =>
      let get := fun l => (sc.lookup l).getD 0
      let max_type := pickMax get k ks
      if 1 < get max_type then some max_type else none

/-- A tiktoken encoding: `encode` either returns a token list or raises. -/
structure Encoding where
  encode : String → Except Unit (List ℕ)

/-- The tiktoken environment `count_tokens` runs against:
`encoding_for_model` may raise `KeyError` (modelled as `Except.error`),
`get_encoding` may fail (e.g. the BPE data cannot be obtained), and the
`len(text) // 4` fallback may itself fail (the final `except` clause). -/
structure TokEnv where
  encodingForModel : String → Except Unit Encoding
  getEncoding : String → Except Unit Encoding
  lenFails : Bool

/-- The tail of `count_tokens` once an encoding has been resolved
(token_counter.py lines 33-59): empty text returns 0, an encode failure
falls back to `len(text) // 4`, and if even that fails, to 1. -/
def countWithEncoding (env : TokEnv) (enc : Encoding) (text : Option String) :
    Except String ℕ :=
  match text with
  | none => .ok 0
  | some t =>
    if t = "" then .ok 0
    else
      match enc.encode t with
      | .ok toks => .ok toks.length
      | .error _ => if env.lenFails then .ok 1 else .ok (t.length / 4)

/-- `count_tokens` (token_counter.py lines 7-59).  When the model-specific
resolution raises `KeyError` and the `cl100k_base` fallback also fails, the
function raises `ValueError` — surfaced as `Except.error`.  Non-string
input conversion (lines 38-44) is not modelled: texts are strings. -/
def count_tokens (env : TokEnv) (text : Option String)
    (model_name : String) : Except String ℕ :=
  match env.encodingForModel model_name with
  | .ok encoding => countWithEncoding env encoding text
  | .error _ =>
    match env.getEncoding "cl100k_base" with
    | .ok encoding => countWithEncoding env encoding text
    | .error _ =>
      .error ("Não foi possível obter encoding para " ++ model_name)

/-- The encoding resolved by `count_tokens` before it looks at the text:
the model-specific one, or the universal `cl100k_base` fallback. -/
def resolvedEncoding (env : TokEnv) (model_name : String) : Option Encoding :=
  match env.encodingForModel model_name with
  | .ok encoding => some encoding
  | .error _ => (env.getEncoding "cl100k_base").toOption

/-- `JOB_TTL_PROCESSING` (config.py, default 3600 seconds). -/
def JOB_TTL_PROCESSING : ℕ := 3600

/-- `JOB_TTL_COMPLETED` (config.py, default 86400 seconds). -/
def JOB_TTL_COMPLETED : ℕ := 86400

/-- `JOB_TTL_FAILED` (config.py, default 86400 seconds). -/
def JOB_TTL_FAILED : ℕ := 86400

/-- Observable operations issued by the orchestrator against the job store
and the filesystem.  `hset` carries the field mapping of one Redis
`hset(job_key, mapping=...)` call; `expire` a `redis.expire` TTL in
seconds; `del` would be an explicit record deletion (never issued);
`removeAttempt` one guarded `os.remove(file_path)` attempt; `saveFile` the
upload written by `save_upload_file`. -/
inductive Op
  | hset (fields : List (String × String))
  | expire (ttl : ℕ)
  | del
  | removeAttempt
  | saveFile
  deriving DecidableEq, Repr

/-- The conversion parameters `process_document` consults
(`ConversionRequest` fields `profile`, `to_langchain`, `model_name`). -/
structure Params where
  profile : String
  toLangchain : Bool
  model_name : String
  deriving DecidableEq, Repr

/-- The collaborator result `converter.run(...)`: the `formats` mapping
(the opaque `doc` object is not inspected by the claims). -/
structure ConvOut where
  fmts : List (String × String)
  deriving DecidableEq, Repr

/-- Exceptions from `converter.exportar_para_langchain`:
`NotImplementedError` is handled separately from other exceptions. -/
inductive LcErr
  | notImplemented (msg : String)
  | other (msg : String)
  deriving DecidableEq, Repr

/-- Outcomes of the awaited calls inside the `try` block of
`process_document`, in program order.  Each store write or external call
may raise (`Except.error` carries `str(e)`); the claims' own framing treats
the `except` handler's writes as succeeding, so they are not in here.
`e1`..`e10` are the Redis calls (`e1` the initial processing write, `e10`
the `expire(JOB_TTL_COMPLETED)` call), `conv` the collaborator run, `tc`
the token count, `an` the section analysis block, `eLcMsg`/`lc`/`e7`/`e7b`
the LangChain export block, `e9` the completed write. -/
structure Env where
  e1 : Except String Unit
  e2 : Except String Unit
  e3 : Except String Unit
  conv : Except String ConvOut
  e4 : Except String Unit
  tc : Except String ℕ
  e5 : Except String Unit
  an : Except String String
  e6 : Except String Unit
  eLcMsg : Except String Unit
  lc : Except LcErr ℕ
  e7 : Except String Unit
  e7b : Except String Unit
  e8 : Except String Unit
  e9 : Except String Unit
  e10 : Except String Unit

/-- The inner LangChain export block (conversion_service.py lines 126-138):
`exportar_para_langchain` failures are caught and recorded, a failure of
the recording `hset` inside the `except Exception` handler is recorded by
one more `hset`, and only a failure of those recording writes escapes.
Returns the store writes performed, or the escaping exception. -/
def langBlock (env : Env) : Except String (List Op) :=
  match env.lc with
  | .ok n =>
    if n ≠ 0 then
      match env.e7 with
      | .ok _ => .ok [Op.hset [("langchain_docs_count", toString n)]]
      | .error e =>
        match env.e7b with
        | .ok _ => .ok [Op.hset [("langchain_error", e)]]
        | .error e2 => .error e2
    else .ok []
  | .error (.notImplemented m) =>
    match env.e7 with
    | .ok _ =>
      .ok [Op.hset [("langchain_error", "Funcionalidade não implementada"),
                    ("langchain_message", m)]]
    | .error e2 => .error e2
  | .error (.other m) =>
    match env.e7 with
    | .ok _ => .ok [Op.hset [("langchain_error", m)]]
    | .error e2 => .error e2

/-- The ops the LangChain block writes when it does not escape. -/
def langOps (env : Env) : List Op :=
  match langBlock env with
  | .ok ops => ops
  | .error _ => []

/-- Abstract stand-in for `json.dumps(result_data)` in the completed
write; the claims never inspect it. -/
def resultJson (token_count : Option ℕ) (analysis : Option String) : String :=
  "result:" ++ toString token_count ++ ":" ++
    (match analysis with
     | some s => s
     | none => "None")

/-- One awaited step of the `try` block: its outcome and the store/file
ops it performs when it succeeds. -/
abbrev Step := Except String Unit × List Op

/-- The straight-line `try` block of `process_document` as the ordered list
of its awaited steps, given the branch conditions: `llms` is
`"llms" in formats_dict`, `anCond` is `token_count and profile ==
"llms-full"`, `lang` is `params.to_langchain`; `token_count` and
`analysis` are the values threaded into the final record. -/
def stepsCore (env : Env) (llms anCond lang : Bool)
    (token_count : Option ℕ) (analysis : Option String) : List Step :=
  [ (env.e1, [Op.hset [("status", "processing"), ("progress", "0.1")]]),
    (env.e2, [Op.hset [("progress", "0.2"),
                       ("status_message", "Inicializando processamento")]]),
    (env.e3, [Op.hset [("status_message", "Convertendo documento")]]),
    (env.conv.map (fun _ => ()), []),
    (env.e4, [Op.hset [("progress", "0.7"),
                       ("status_message", "Analisando documento")]]),
    (if llms then env.tc.map (fun _ => ()) else .ok (), []),
    (if llms then env.e5 else .ok (),
     if llms then [Op.hset [("progress", "0.8")]] else []),
    (if anCond then env.an.map (fun _ => ()) else .ok (), []),
    (if anCond then env.e6 else .ok (),
     if anCond then [Op.hset [("progress", "0.9")]] else []),
    (if lang then env.eLcMsg else .ok (),
     if lang then
       [Op.hset [("status_message", "Exportando para framework LangChain")]]
     else []),
    (if lang then (langBlock env).map (fun _ => ()) else .ok (),
     if lang then langOps env else []),
    (if lang then env.e8 else .ok (),
     if lang then [Op.hset [("progress", "0.95")]] else []),
    (env.e9,
     [Op.hset [("status", "completed"), ("progress", "1.0"),
               ("status_message", "Processamento concluído"),
               ("result", resultJson token_count analysis)]]),
    (env.e10, [Op.expire JOB_TTL_COMPLETED]),
    (.ok (), [Op.removeAttempt]) ]

/-- `"llms" in formats_dict` for the conversion outcome. -/
def llmsOf (env : Env) : Bool :=
  match env.conv with
  | .ok r => (r.fmts.lookup "llms").isSome
  | .error _ => false

/-- `token_count` after the conditional counting step (`None` when the
`llms` format is absent). -/
def tokenCountOf (env : Env) : Option ℕ :=
  if llmsOf env then
    some (match env.tc with
          | .ok n => n
          | .error _ => 0)
  else none

/-- Python truthiness of `token_count` (`None` and `0` are falsy). -/
def tokenCountTruthy (tc : Option ℕ) : Bool :=
  match tc with
  | some n => decide (n ≠ 0)
  | none => false

/-- `token_count and params.profile.value == "llms-full"`. -/
def anCondOf (env : Env) (p : Params) : Bool :=
  tokenCountTruthy (tokenCountOf env) && (p.profile == "llms-full")

/-- The analysis value threaded into the result (`None` when the analysis
block does not run). -/
def analysisOf (env : Env) (p : Params) : Option String :=
  if anCondOf env p then
    some (match env.an with
          | .ok s => s
          | .error _ => "")
  else none

/-- The `try` block of `process_document` for a given environment. -/
def stepsList (env : Env) (p : Params) : List Step :=
  stepsCore env (llmsOf env) (anCondOf env p) p.toLangchain
    (tokenCountOf env) (analysisOf env p)

/-- Run the steps in order: a failing step performs no op and aborts the
rest of the `try` block with its exception. -/
def runSteps : List Step → Except String Unit × List Op
  | [] => (Except.ok (), [])
  | s :: rest =>
    match s.1 with
    | Except.error e => (Except.error e, [])
    | Except.ok _ =>
      let r := runSteps rest
      (r.1, s.2 ++ r.2)

/-- All ops of a step list, in order. -/
def joinOps (l : List Step) : List Op := (l.map Prod.snd).flatten

/-- `process_document` (conversion_service.py lines 42-183): run the `try`
block; on any exception write `status=failed, error=str(e)`, set
`JOB_TTL_FAILED`, and attempt to remove the temporary file (lines
168-183). -/
def process_document (env : Env) (p : Params) : List Op :=
  match runSteps (stepsList env p) with
  | (Except.ok _, ops) => ops
  | (Except.error e, ops) =>
    ops ++ [Op.hset [("status", "failed"), ("error", e)],
            Op.expire JOB_TTL_FAILED, Op.removeAttempt]

/-- The store/file ops of `create_conversion_job` (conversion_service.py
lines 186-230): initial record, `JOB_TTL_PROCESSING`, upload save. -/
def create_conversion_job_ops (filename created_at params_json : String) :
    List Op :=
  [ Op.hset [("status", "created"), ("progress", "0"),
             ("status_message", "Job criado"), ("created_at", created_at),
             ("filename", filename), ("params", params_json)],
    Op.expire JOB_TTL_PROCESSING,
    Op.saveFile ]

/-- The full op trace of one job: creation followed by the scheduled
background processing. -/
def jobTrace (env : Env) (p : Params)
    (filename created_at params_json : String) : List Op :=
  create_conversion_job_ops filename created_at params_json ++
    process_document env p

/-- The `status` field of one store op, when it writes one. -/
def statusKey (o : Op) : Option String :=
  match o with
  | Op.hset fields => fields.lookup "status"
  | _ => none

/-- The sequence of `status` values written to the store. -/
def statusesOf (ops : List Op) : List String :=
  ops.filterMap statusKey

/-- The numeric value of one written progress string. -/
def progVal : String → ℚ
  | "0" => 0
  | "0.1" => 1 / 10
  | "0.2" => 1 / 5
  | "0.7" => 7 / 10
  | "0.8" => 4 / 5
  | "0.9" => 9 / 10
  | "0.95" => 19 / 20
  | "1.0" => 1
  | _ => 0

/-- The numeric `progress` value of one store op, when it writes one. -/
def progressKey (o : Op) : Option ℚ :=
  match o with
  | Op.hset fields => (fields.lookup "progress").map progVal
  | _ => none

/-- The sequence of `progress` values written to the store. -/
def progressWrites (ops : List Op) : List ℚ :=
  ops.filterMap progressKey

/-- The TTL of one store op when it is an `expire` call. -/
def expireKey (o : Op) : Option ℕ :=
  match o with
  | Op.expire t => some t
  | _ => none

/-- The sequence of TTLs passed to `expire`. -/
def expiresOf (ops : List Op) : List ℕ :=
  ops.filterMap expireKey

/-- An environment in which every awaited call succeeds: the conversion
yields an `llms` format, five tokens are counted, the analysis and the
LangChain export succeed. -/
def envOK : Env :=
  { e1 := .ok (), e2 := .ok (), e3 := .ok (),
    conv := .ok ⟨[("llms", "texto convertido")]⟩,
    e4 := .ok (), tc := .ok 5, e5 := .ok (),
    an := .ok "analise", e6 := .ok (),
    eLcMsg := .ok (), lc := .ok 2, e7 := .ok (), e7b := .ok (),
    e8 := .ok (), e9 := .ok (), e10 := .ok () }

/-- An environment in which the document conversion raises. -/
def envFail : Env := { envOK with conv := .error "conversion failed" }

/-- An environment in which everything succeeds up to and including the
completed write, and then the `expire(JOB_TTL_COMPLETED)` call raises. -/
def envE10 : Env :=
  { envOK with conv := .ok ⟨[]⟩, e10 := .error "redis connection lost" }

/-- Parameters with the light profile and no LangChain export. -/
def pMin : Params := ⟨"llms-min", false, "gpt-3.5-turbo"⟩

/-- Parameters with the full profile and LangChain export. -/
def pFull : Params := ⟨"llms-full", true, "gpt-3.5-turbo"⟩

/-- A tiktoken environment in which both the model-specific resolution and
the `cl100k_base` fallback fail. -/
def tokEnvBad : TokEnv :=
  { encodingForModel := fun _ => .error (),
    getEncoding := fun _ => .error (),
    lenFails := false }

/-- A healthy tiktoken environment whose encoder always yields two tokens. -/
def tokEnvGood : TokEnv :=
  { encodingForModel := fun _ => .ok ⟨fun _ => .ok [7, 9]⟩,
    getEncoding := fun _ => .ok ⟨fun _ => .ok [7, 9]⟩,
    lenFails := false }

/-- A content sample saturated with legal-document keywords. -/
def legalSample : String :=
  "lei artigo parágrafo norma contrato decreto legislação"

/-- The progress values the full `try` block would write, given the three
branch conditions (`llms` present, analysis enabled, LangChain export). -/
def fullProgress (b1 b2 b3 : Bool) : List ℚ :=
  [progVal "0.1", progVal "0.2", progVal "0.7"] ++
    (if b1 then [progVal "0.8"] else []) ++
    (if b2 then [progVal "0.9"] else []) ++
    (if b3 then [progVal "0.95"] else []) ++ [progVal "1.0"]

/-- The status sequences a job record can go through, as left by the
creation write and the background routine. -/
def reachableStatusPaths : List (List String) :=
  [ ["created", "processing", "completed"],
    ["created", "processing", "failed"],
    ["created", "failed"],
    ["created", "processing", "completed", "failed"] ]

/-- C8: the analyzer entry points reject empty input immediately:
`analyze_sections` raises `ValueError` on an empty section dict before
computing anything, and `_extract_content_sample` raises `ValueError` on
empty text before building the sample. -/
theorem analyzer_rejects_empty_inputs :
    (∀ a : TokenAnalyzer,
        a.analyze_sections [] = Except.error AnalyzerError.invalidArgument) ∧
    (∀ (section_map : List (String × String)) (max_size : ℕ),
        extract_content_sample "" section_map max_size =
          Except.error AnalyzerError.invalidArgument) :=
  ⟨fun _ => rfl, fun _ _ => rfl⟩

/-- C10: on every non-empty section dict whose counts sum to zero,
`analyze_sections` raises `ZeroDivisionError` from the unguarded division
by `total_tokens`, and consequently no analysis value with
`total_tokens = 0` is ever produced. -/
theorem zero_total_raises (a : TokenAnalyzer) (sd : List (String × ℕ)) :
    (sd ≠ [] → sumTokens sd = 0 →
      a.analyze_sections sd = Except.error AnalyzerError.zeroDivision) ∧
    (∀ r, a.analyze_sections sd = Except.ok r → 0 < r.total_tokens) := by
  constructor
  · intro h1 h2
    have hiE : sd.isEmpty = false := by
      cases sd
      · exact absurd rfl h1
      · rfl
    simp only [TokenAnalyzer.analyze_sections, hiE, Bool.false_eq_true,
      if_false, h2, if_pos]
  · intro r hr
    unfold TokenAnalyzer.analyze_sections at hr
    by_cases hE : sd.isEmpty = true
    · rw [if_pos hE] at hr
      exact absurd hr (by simp)
    · rw [if_neg hE] at hr
      dsimp only [] at hr
      by_cases hz : sumTokens sd = 0
      · rw [if_pos hz] at hr
        exact absurd hr (by simp)
      · rw [if_neg hz] at hr
        have h' : sumTokens sd = r.total_tokens :=
          congrArg Analysis.total_tokens (Except.ok.inj hr)
        rw [← h']
        exact Nat.pos_of_ne_zero hz

/-- Witness for C10 at a concrete all-zero section dict. -/
theorem zero_total_raises_witness :
    TokenAnalyzer.analyze_sections ⟨"gpt-3.5-turbo"⟩ [("# Z", 0)] =
      Except.error AnalyzerError.zeroDivision :=
  (zero_total_raises ⟨"gpt-3.5-turbo"⟩ [("# Z", 0)]).1 (by simp) rfl

/-- C4, counterexample to the claim as stated: on the non-empty section
dict `{"# A": 0}` the code raises `ZeroDivisionError` instead of returning
a percentages mapping. -/
theorem percentages_counterexample :
    TokenAnalyzer.analyze_sections ⟨"gpt-4"⟩ [("# A", 0)] =
      Except.error AnalyzerError.zeroDivision := rfl

/-- C4 amended: for every non-empty section dict whose counts sum to a
positive total, `analyze_sections` returns, its percentages carry exactly
the input keys, and the percentage values sum to 100 within 1e-6 (the ℚ
model gives exactly 100). -/
theorem percentages_sum_amended (a : TokenAnalyzer) (sd : List (String × ℕ))
    (h1 : sd ≠ []) (h2 : 0 < sumTokens sd) :
    ∃ r, a.analyze_sections sd = Except.ok r ∧
      r.percentages.map Prod.fst = sd.map Prod.fst ∧
      |(r.percentages.map Prod.snd).sum - 100| ≤ 1 / 1000000 := by
  have hz : sumTokens sd ≠ 0 := h2.ne'
  have hiE : sd.isEmpty = false := by
    cases sd
    · exact absurd rfl h1
    · rfl
  unfold TokenAnalyzer.analyze_sections
  rw [if_neg (by simp [hiE]), if_neg hz]
  refine ⟨_, rfl, ?_, ?_⟩
  · simp [List.map_map, Function.comp]
  · have hsum :
        (sd.map fun kv : String × ℕ =>
          ((kv.2 : ℚ) / (sumTokens sd : ℚ)) * 100).sum = 100 := by
      have e1 : (fun kv : String × ℕ =>
          ((kv.2 : ℚ) / (sumTokens sd : ℚ)) * 100) =
          fun kv : String × ℕ =>
            ((kv.2 : ℚ)) * (100 / (sumTokens sd : ℚ)) := by
        funext kv
        ring
      rw [e1, List.sum_map_mul_right]
      have e2 : (sd.map fun kv : String × ℕ => ((kv.2 : ℚ))).sum =
          ((sumTokens sd : ℕ) : ℚ) := by
        rw [sumTokens, Nat.cast_list_sum, List.map_map]
        rfl
      rw [e2]
      have hT : ((sumTokens sd : ℕ) : ℚ) ≠ 0 := Nat.cast_ne_zero.mpr hz
      field_simp
    simp only [List.map_map]
    have : ((sd.map fun kv : String × ℕ =>
        (kv.1, ((kv.2 : ℚ) / (sumTokens sd : ℚ)) * 100)).map Prod.snd) =
        sd.map fun kv : String × ℕ =>
          ((kv.2 : ℚ) / (sumTokens sd : ℚ)) * 100 := by
      simp [List.map_map, Function.comp]
    rw [List.map_map] at this
    rw [this, hsum]
    norm_num

/-- Witness for the amended C4 at a concrete one-section dict. -/
theorem percentages_sum_amended_witness :
    ∃ r, TokenAnalyzer.analyze_sections ⟨"gpt-4"⟩ [("# A", 3)] =
        Except.ok r ∧
      r.percentages.map Prod.fst = [("# A", (3 : ℕ))].map Prod.fst ∧
      |(r.percentages.map Prod.snd).sum - 100| ≤ 1 / 1000000 :=
  percentages_sum_amended ⟨"gpt-4"⟩ [("# A", 3)] (by simp) (by decide)

/-- Membership is preserved by stable insertion. -/
theorem mem_insertStable {α : Type} (le : α → α → Bool) (x a : α)
    (l : List α) : a ∈ insertStable le x l ↔ a = x ∨ a ∈ l := by
  induction l with
  | nil => simp [insertStable]
  | cons y ys ih =>
    by_cases h : le y x = true
    · rw [show insertStable le x (y :: ys) = y :: insertStable le x ys by
        simp [insertStable, h]]
      simp only [List.mem_cons, ih]
      tauto
    · rw [show insertStable le x (y :: ys) = x :: y :: ys by
        simp [insertStable, h]]
      simp only [List.mem_cons]

/-- Membership is preserved by the stable sort. -/
theorem mem_stableSort {α : Type} (le : α → α → Bool) (a : α)
    (l : List α) : a ∈ stableSort le l ↔ a ∈ l := by
  suffices h : ∀ acc : List α,
      a ∈ l.foldl (fun acc x => insertStable le x acc) acc ↔
        a ∈ acc ∨ a ∈ l by
    simpa [stableSort] using h []
  induction l with
  | nil => simp
  | cons y ys ih =>
    intro acc
    simp only [List.foldl_cons, ih, mem_insertStable, List.mem_cons]
    tauto

/-- Sorted (ascending) in the second component. -/
def KeySorted (l : List (String × ℕ)) : Prop :=
  List.Pairwise (fun a b : String × ℕ => a.2 ≤ b.2) l

/-- Stable insertion preserves the ascending-key invariant. -/
theorem keySorted_insertStable (x : String × ℕ) (l : List (String × ℕ))
    (h : KeySorted l) : KeySorted (insertStable leSnd x l) := by
  induction l with
  | nil => simp [insertStable, KeySorted]
  | cons y ys ih =>
    rcases List.pairwise_cons.mp h with ⟨hy, hys⟩
    by_cases hle : leSnd y x = true
    · have hyx : y.2 ≤ x.2 := by simpa [leSnd] using hle
      simp only [insertStable, hle, if_true]
      refine List.pairwise_cons.mpr ⟨?_, ih hys⟩
      intro b hb
      rcases (mem_insertStable leSnd x b ys).mp hb with rfl | hb'
      · exact hyx
      · exact hy b hb'
    · have hxy : x.2 ≤ y.2 := le_of_not_le (by simpa [leSnd] using hle)
      simp only [insertStable, hle, if_false]
      refine List.pairwise_cons.mpr ⟨?_, h⟩
      intro b hb
      rcases List.mem_cons.mp hb with rfl | hb'
      · exact hxy
      · exact le_trans hxy (hy b hb')

/-- The stable sort by ascending key produces an ascending list. -/
theorem keySorted_stableSort (l : List (String × ℕ)) :
    KeySorted (stableSort leSnd l) := by
  suffices h : ∀ acc : List (String × ℕ), KeySorted acc →
      KeySorted (l.foldl (fun acc x => insertStable leSnd x acc) acc) by
    exact h [] (by simp [KeySorted])
  induction l with
  | nil =>
    intro acc h
    simpa using h
  | cons y ys ih =>
    intro acc hacc
    simp only [List.foldl_cons]
    exact ih _ (keySorted_insertStable y acc hacc)

/-- C5, counterexample to the claim as stated: on the non-empty section
dict `{"# B": 0}` the code raises `ZeroDivisionError`, so no
`exceeds_limit` value is returned at all. -/
theorem exceeds_limit_counterexample :
    TokenAnalyzer.analyze_sections ⟨"gpt-4"⟩ [("# B", 0)] =
      Except.error AnalyzerError.zeroDivision := rfl

/-- C5 amended: for every non-empty section dict with positive total,
`analyze_sections` returns with `exceeds_limit = (total > limit)`; when
the total exceeds the limit, the first recommendation is the
exceeds-limit message, and the second either recommends a model of the
table with the smallest limit that still fits the total, or recommends
splitting when no table entry is large enough. -/
theorem exceeds_limit_amended (a : TokenAnalyzer) (sd : List (String × ℕ))
    (h1 : sd ≠ []) (h2 : 0 < sumTokens sd) :
    ∃ r, a.analyze_sections sd = Except.ok r ∧
      r.exceeds_limit = decide (modelLimitOf a < sumTokens sd) ∧
      (modelLimitOf a < sumTokens sd →
        r.recommendations.head? = some (exceedsMsg a) ∧
        ((∃ bm bl, (bm, bl) ∈ modelLimits ∧ sumTokens sd ≤ bl ∧
            (∀ m l, (m, l) ∈ modelLimits → sumTokens sd ≤ l → bl ≤ l) ∧
            r.recommendations[1]? = some (useModelMsg bm bl)) ∨
         ((∀ m l, (m, l) ∈ modelLimits → l < sumTokens sd) ∧
            r.recommendations[1]? = some splitMsg))) := by
  have hz : sumTokens sd ≠ 0 := h2.ne'
  have hiE : sd.isEmpty = false := by
    cases sd
    · exact absurd rfl h1
    · rfl
  unfold TokenAnalyzer.analyze_sections
  rw [if_neg (by simp [hiE]), if_neg hz]
  refine ⟨_, rfl, rfl, ?_⟩
  intro hex
  dsimp only
  rw [if_pos (by simpa using hex)]
  constructor
  · simp
  · by_cases hsuit :
        (modelLimits.filter (fun ml => decide (sumTokens sd ≤ ml.2))).isEmpty = true
    · right
      have hnil : modelLimits.filter (fun ml => decide (sumTokens sd ≤ ml.2)) = [] := by
        simpa using hsuit
      constructor
      · intro m l hml
        by_contra hcon
        push_neg at hcon
        have hmem : (m, l) ∈ modelLimits.filter (fun ml => decide (sumTokens sd ≤ ml.2)) :=
          List.mem_filter.mpr ⟨hml, by simpa using hcon⟩
        rw [hnil] at hmem
        simp at hmem
      · rw [if_pos hsuit]
        simp
    · left
      have hne' : modelLimits.filter (fun ml => decide (sumTokens sd ≤ ml.2)) ≠ [] := by
        intro hcon
        rw [hcon] at hsuit
        simp at hsuit
      obtain ⟨w, hw⟩ := List.exists_mem_of_ne_nil _ hne'
      have hwsort : w ∈ stableSort leSnd
          (modelLimits.filter (fun ml => decide (sumTokens sd ≤ ml.2))) :=
        (mem_stableSort _ _ _).mpr hw
      rcases hsort : stableSort leSnd
          (modelLimits.filter (fun ml => decide (sumTokens sd ≤ ml.2))) with
        _ | ⟨⟨bm, bl⟩, rest⟩
      · rw [hsort] at hwsort
        simp at hwsort
      · have hhead : (bm, bl) ∈ modelLimits.filter (fun ml => decide (sumTokens sd ≤ ml.2)) := by
          have : (bm, bl) ∈ stableSort leSnd
              (modelLimits.filter (fun ml => decide (sumTokens sd ≤ ml.2))) := by
            rw [hsort]
            simp
          exact (mem_stableSort _ _ _).mp this
        rcases List.mem_filter.mp hhead with ⟨hheadMem, hheadFit⟩
        refine ⟨bm, bl, hheadMem, by simpa using hheadFit, ?_, ?_⟩
        · intro m l hml hle
          have hmem : (m, l) ∈ modelLimits.filter (fun ml => decide (sumTokens sd ≤ ml.2)) :=
            List.mem_filter.mpr ⟨hml, by simpa using hle⟩
          have hmemSort : (m, l) ∈ stableSort leSnd
              (modelLimits.filter (fun ml => decide (sumTokens sd ≤ ml.2))) :=
            (mem_stableSort _ _ _).mpr hmem
          rw [hsort] at hmemSort
          rcases List.mem_cons.mp hmemSort with heq | htail
          · have : l = bl := congrArg Prod.snd heq
            rw [this]
          · have hKS := keySorted_stableSort
              (modelLimits.filter (fun ml => decide (sumTokens sd ≤ ml.2)))
            rw [hsort] at hKS
            rcases List.pairwise_cons.mp hKS with ⟨hall, _⟩
            exact hall (m, l) htail
        · rw [if_neg hsuit]
          simp

/-- Witness for the amended C5 at a section dict that exceeds the gpt-4
limit. -/
theorem exceeds_limit_amended_witness :
    ∃ r, TokenAnalyzer.analyze_sections ⟨"gpt-4"⟩ [("# Content", 20000)] =
        Except.ok r ∧ r.exceeds_limit = true := by
  obtain ⟨r, hok, hex, _⟩ :=
    exceeds_limit_amended ⟨"gpt-4"⟩ [("# Content", 20000)] (by simp) (by decide)
  refine ⟨r, hok, ?_⟩
  rw [hex]
  decide

/-- The near-limit warning is distinct from the within-limit message for
every model name (they differ at character 17, `p` vs `d`). -/
theorem nearLimitMsg_ne_withinMsg (a : TokenAnalyzer) :
    nearLimitMsg ≠ withinMsg a := by
  intro h
  have hd := congrArg (fun s => s.data[17]?) h
  simp only [nearLimitMsg, withinMsg, String.data_append] at hd
  rw [List.getElem?_append_left (by simp [List.length_append]),
      List.getElem?_append_left (by simp [List.length_append]),
      List.getElem?_append_left (by simp [List.length_append]),
      List.getElem?_append_left (by decide)] at hd
  revert hd
  decide

/-- C6, counterexample to the claim as stated: `{"# C": 0}` is non-empty
with `total_tokens = 0 <= model_limit`, yet the code raises
`ZeroDivisionError` instead of emitting a within-limit recommendation. -/
theorem within_limit_counterexample :
    TokenAnalyzer.analyze_sections ⟨"gpt-4"⟩ [("# C", 0)] =
      Except.error AnalyzerError.zeroDivision := rfl

/-- C6 amended: for every non-empty section dict with positive total not
exceeding the model limit, the first recommendation is the within-limit
message, and the near-limit warning is present iff
`total_tokens > 0.8 * model_limit`; in particular no warning appears when
`total_tokens <= 0.8 * model_limit`. -/
theorem within_limit_amended (a : TokenAnalyzer) (sd : List (String × ℕ))
    (h1 : sd ≠ []) (h2 : 0 < sumTokens sd)
    (h3 : sumTokens sd ≤ modelLimitOf a) :
    ∃ r, a.analyze_sections sd = Except.ok r ∧
      r.recommendations.head? = some (withinMsg a) ∧
      (nearLimitMsg ∈ r.recommendations ↔
        (modelLimitOf a : ℚ) * (8 / 10) < (sumTokens sd : ℚ)) := by
  have hz : sumTokens sd ≠ 0 := h2.ne'
  have hiE : sd.isEmpty = false := by
    cases sd
    · exact absurd rfl h1
    · rfl
  have hnex : ¬ (modelLimitOf a < sumTokens sd) := not_lt.mpr h3
  unfold TokenAnalyzer.analyze_sections
  rw [if_neg (by simp [hiE]), if_neg hz]
  refine ⟨_, rfl, ?_, ?_⟩
  · dsimp only
    rw [if_neg (by simpa using hnex)]
    simp
  · dsimp only
    rw [if_neg (by simpa using hnex)]
    by_cases hcond : (modelLimitOf a : ℚ) * (8 / 10) < (sumTokens sd : ℚ)
    · rw [if_pos (by simpa using hcond)]
      simp [hcond]
    · rw [if_neg (by simpa using hcond)]
      have hne1 := nearLimitMsg_ne_withinMsg a
      have hne2 : nearLimitMsg ≠ rawMsg := by decide
      constructor
      · intro hmem
        exfalso
        simp only [List.append_nil, List.singleton_append, List.mem_cons] at hmem
        rcases hmem with heq | hmem'
        · exact hne1 heq
        · rcases hlook : sd.lookup "# Raw" with _ | v
          · rw [hlook] at hmem'
            simp at hmem'
          · rw [hlook] at hmem'
            simp at hmem'
            exact hne2 hmem'.2
      · intro hc
        exact absurd hc hcond

/-- Witness for the amended C6: 8000 tokens against the 8192 limit of
gpt-4 is within the limit but past 80% of it, so the warning appears. -/
theorem within_limit_amended_witness :
    ∃ r, TokenAnalyzer.analyze_sections ⟨"gpt-4"⟩ [("# T", 8000)] =
        Except.ok r ∧ nearLimitMsg ∈ r.recommendations := by
  obtain ⟨r, hok, hh, hiff⟩ :=
    within_limit_amended ⟨"gpt-4"⟩ [("# T", 8000)] (by simp) (by decide)
      (by decide)
  refine ⟨r, hok, hiff.mpr ?_⟩
  rw [show modelLimitOf ⟨"gpt-4"⟩ = 8192 from rfl,
      show sumTokens [("# T", 8000)] = 8000 from rfl]
  norm_num

/-- The `pickMax` fold returns an element of its candidates whose score
dominates the accumulator and all candidates. -/
theorem pickMax_spec (score : String → ℕ) (xs : List String) :
    ∀ b : String,
      (pickMax score b xs = b ∨ pickMax score b xs ∈ xs) ∧
      score b ≤ score (pickMax score b xs) ∧
      ∀ x ∈ xs, score x ≤ score (pickMax score b xs) := by
  induction xs with
  | nil =>
    intro b
    simp [pickMax]
  | cons x xs ih =>
    intro b
    simp only [pickMax]
    by_cases h : score b < score x
    · simp only [if_pos h]
      rcases ih x with ⟨hmem, hle, hall⟩
      refine ⟨?_, le_trans (le_of_lt h) hle, ?_⟩
      · rcases hmem with he | hm
        · exact Or.inr (by rw [he]; exact List.mem_cons_self x xs)
        · exact Or.inr (List.mem_cons_of_mem x hm)
      · intro y hy
        rcases List.mem_cons.mp hy with rfl | hy'
        · exact hle
        · exact hall y hy'
    · simp only [if_neg h]
      rcases ih b with ⟨hmem, hle, hall⟩
      refine ⟨?_, hle, ?_⟩
      · rcases hmem with he | hm
        · exact Or.inl he
        · exact Or.inr (List.mem_cons_of_mem x hm)
      · intro y hy
        rcases List.mem_cons.mp hy with rfl | hy'
        · exact le_trans (not_lt.mp h) hle
        · exact hall y hy'

/-- Python `max(iterable, key=...)` returns the first element attaining
the maximum: `pickMax` coincides with `find?` for the dominance test. -/
theorem pickMax_find (score : String → ℕ) (xs : List String) :
    ∀ b : String,
      (b :: xs).find?
          (fun y => decide (score (pickMax score b xs) ≤ score y)) =
        some (pickMax score b xs) := by
  induction xs with
  | nil =>
    intro b
    simp [pickMax, List.find?]
  | cons x xs ih =>
    intro b
    simp only [pickMax]
    by_cases h : score b < score x
    · simp only [if_pos h]
      have hlt : score b < score (pickMax score x xs) :=
        lt_of_lt_of_le h (pickMax_spec score xs x).2.1
      rw [List.find?_cons_of_neg]
      · exact ih x
      · simpa using not_le.mpr hlt
    · simp only [if_neg h]
      have hr := ih b
      set p : String → Bool :=
        fun y => decide (score (pickMax score b xs) ≤ score y) with hp
      by_cases hb : score (pickMax score b xs) ≤ score b
      · have h1 : List.find? p (b :: xs) = some b :=
          List.find?_cons_of_pos _ (by simp [hp, hb])
        have hrb : pickMax score b xs = b :=
          Option.some.inj (hr.symm.trans h1)
        rw [hrb]
        exact List.find?_cons_of_pos _ (by simp [hp, hrb])
      · have hpredb : ¬ (p b = true) := by
          simp only [hp, decide_eq_true_eq]
          exact hb
        have h2 : List.find? p xs = some (pickMax score b xs) := by
          rw [List.find?_cons_of_neg _ hpredb] at hr
          exact hr
        have hpx : ¬ (p x = true) := by
          simp only [hp, decide_eq_true_eq]
          intro hcon
          exact hb (le_trans hcon (not_lt.mp h))
        rw [List.find?_cons_of_neg _ hpredb, List.find?_cons_of_neg _ hpx]
        exact h2

/-- Bumping a score leaves the label keys unchanged. -/
theorem bump_keys (k : String) (d : ℕ) (m : List (String × ℕ)) :
    (bump k d m).map Prod.fst = m.map Prod.fst := by
  rw [bump, List.map_map]
  apply List.map_congr_left
  intro p hp
  by_cases h : p.1 == k <;> simp [h, Function.comp]

/-- The score dictionary always has exactly the indicator labels as keys,
in table order. -/
theorem scoresList_keys (c : String) (sm : List (String × String)) :
    (scoresList c sm).map Prod.fst = indicatorLabels := by
  unfold scoresList
  dsimp only
  split <;> split <;> split <;> split <;>
    simp [bump_keys, indicatorLabels, List.map_map, Function.comp]

/-- C9: `_detect_content_type` is a deterministic function of its inputs;
it returns `None` whenever every label scores at most 1 (which subsumes
the no-positive-score case); and a returned label has score above 1, is
maximal, and is the first label attaining the maximum in table-definition
order (the `find?` characterisation). -/
theorem detect_content_type_deterministic_spec (c : String)
    (sm : List (String × String)) :
    detect_content_type c sm = detect_content_type c sm ∧
    ((∀ l ∈ indicatorLabels, scoreOf c sm l ≤ 1) →
      detect_content_type c sm = none) ∧
    (∀ l, detect_content_type c sm = some l →
      1 < scoreOf c sm l ∧ l ∈ indicatorLabels ∧
      (∀ l' ∈ indicatorLabels, scoreOf c sm l' ≤ scoreOf c sm l) ∧
      indicatorLabels.find?
        (fun l' => decide (scoreOf c sm l ≤ scoreOf c sm l')) = some l) := by
  refine ⟨rfl, ?_, ?_⟩
  · intro hall
    by_cases hc : c = ""
    · simp [detect_content_type, hc]
    · unfold detect_content_type
      rw [if_neg hc]
      dsimp only
      rw [scoresList_keys c sm,
        show indicatorLabels = "artigo_cientifico" :: ["literatura",
          "documento_tecnico", "conteudo_educacional", "documento_legal",
          "email_comunicacao"] from rfl]
      dsimp only
      rw [if_neg]
      intro hgt
      rcases (pickMax_spec (fun l => ((scoresList c sm).lookup l).getD 0)
          ["literatura", "documento_tecnico", "conteudo_educacional",
           "documento_legal", "email_comunicacao"] "artigo_cientifico").1 with
        he | hm
      · rw [he] at hgt
        exact absurd hgt (not_lt.mpr (hall "artigo_cientifico" (by
          rw [show indicatorLabels = "artigo_cientifico" :: ["literatura",
            "documento_tecnico", "conteudo_educacional", "documento_legal",
            "email_comunicacao"] from rfl]
          exact List.mem_cons_self _ _)))
      · exact absurd hgt (not_lt.mpr (hall _ (by
          rw [show indicatorLabels = "artigo_cientifico" :: ["literatura",
            "documento_tecnico", "conteudo_educacional", "documento_legal",
            "email_comunicacao"] from rfl]
          exact List.mem_cons_of_mem _ hm)))
  · intro l hl
    by_cases hc : c = ""
    · rw [detect_content_type, if_pos hc] at hl
      exact absurd hl (by simp)
    · rw [detect_content_type, if_neg hc] at hl
      dsimp only at hl
      rw [scoresList_keys c sm,
        show indicatorLabels = "artigo_cientifico" :: ["literatura",
          "documento_tecnico", "conteudo_educacional", "documento_legal",
          "email_comunicacao"] from rfl] at hl
      dsimp only at hl
      by_cases hgt : 1 < ((scoresList c sm).lookup
          (pickMax (fun l' => ((scoresList c sm).lookup l').getD 0)
            "artigo_cientifico"
            ["literatura", "documento_tecnico", "conteudo_educacional",
             "documento_legal", "email_comunicacao"])).getD 0
      · rw [if_pos hgt] at hl
        have hleq : l = pickMax (fun l' => ((scoresList c sm).lookup l').getD 0)
            "artigo_cientifico"
            ["literatura", "documento_tecnico", "conteudo_educacional",
             "documento_legal", "email_comunicacao"] :=
          (Option.some.inj hl).symm
        subst hleq
        rcases pickMax_spec (fun l' => ((scoresList c sm).lookup l').getD 0)
            ["literatura", "documento_tecnico", "conteudo_educacional",
             "documento_legal", "email_comunicacao"] "artigo_cientifico" with
          ⟨hmem, hb, hall⟩
        refine ⟨hgt, ?_, ?_, ?_⟩
        · rw [show indicatorLabels = "artigo_cientifico" :: ["literatura",
            "documento_tecnico", "conteudo_educacional", "documento_legal",
            "email_comunicacao"] from rfl]
          rcases hmem with he | hm
          · rw [he]
            exact List.mem_cons_self _ _
          · exact List.mem_cons_of_mem _ hm
        · intro l' hl'
          rw [show indicatorLabels = "artigo_cientifico" :: ["literatura",
            "documento_tecnico", "conteudo_educacional", "documento_legal",
            "email_comunicacao"] from rfl] at hl'
          rcases List.mem_cons.mp hl' with rfl | hm'
          · exact hb
          · exact hall l' hm'
        · rw [show indicatorLabels = "artigo_cientifico" :: ["literatura",
            "documento_tecnico", "conteudo_educacional", "documento_legal",
            "email_comunicacao"] from rfl]
          exact pickMax_find (fun l' => ((scoresList c sm).lookup l').getD 0)
            ["literatura", "documento_tecnico", "conteudo_educacional",
             "documento_legal", "email_comunicacao"] "artigo_cientifico"
      · rw [if_neg hgt] at hl
        exact absurd hl (by simp)

set_option maxRecDepth 100000 in
/-- Witness for C9: on a keyword-saturated legal sample the classifier
picks the legal label, which scores above 1, is maximal, and is the first
maximal label in table order. -/
theorem detect_content_type_deterministic_spec_witness :
    1 < scoreOf legalSample [] "documento_legal" ∧
      "documento_legal" ∈ indicatorLabels ∧
      (∀ l' ∈ indicatorLabels,
        scoreOf legalSample [] l' ≤ scoreOf legalSample [] "documento_legal") ∧
      indicatorLabels.find?
          (fun l' => decide (scoreOf legalSample [] "documento_legal" ≤
            scoreOf legalSample [] l')) =
        some "documento_legal" :=
  (detect_content_type_deterministic_spec legalSample []).2.2
    "documento_legal" (by decide)

/-- The resolved-encoding tail of `count_tokens` behaves as documented:
0 for empty/None text, encoder length on success, `len // 4` on encode
failure, 1 when even that fails — and it never raises. -/
theorem countWithEncoding_spec (env : TokEnv) (enc : Encoding)
    (text : Option String) :
    ((text = none ∨ text = some "") →
      countWithEncoding env enc text = Except.ok 0) ∧
    (∀ t toks, text = some t → t ≠ "" → enc.encode t = Except.ok toks →
      countWithEncoding env enc text = Except.ok toks.length) ∧
    (∀ t, text = some t → t ≠ "" → enc.encode t = Except.error () →
      countWithEncoding env enc text =
        Except.ok (if env.lenFails then 1 else t.length / 4)) ∧
    (∃ n, countWithEncoding env enc text = Except.ok n) := by
  rcases text with _ | t
  · refine ⟨fun _ => rfl, ?_, ?_, ⟨0, rfl⟩⟩
    · intro t toks ht
      exact absurd ht (by simp)
    · intro t ht
      exact absurd ht (by simp)
  · by_cases ht : t = ""
    · subst ht
      refine ⟨fun _ => rfl, ?_, ?_, ⟨0, rfl⟩⟩
      · intro t' toks ht' hne
        rw [Option.some.inj ht'] at hne
        exact absurd rfl hne
      · intro t' ht' hne
        rw [Option.some.inj ht'] at hne
        exact absurd rfl hne
    · refine ⟨?_, ?_, ?_, ?_⟩
      · intro hcon
        rcases hcon with hcon | hcon
        · exact absurd hcon (by simp)
        · exact absurd (Option.some.inj hcon) ht
      · intro t' toks ht' hne henc
        have heq : t' = t := (Option.some.inj ht').symm
        subst heq
        unfold countWithEncoding
        dsimp only
        rw [if_neg ht, henc]
      · intro t' ht' hne henc
        have heq : t' = t := (Option.some.inj ht').symm
        subst heq
        unfold countWithEncoding
        dsimp only
        rw [if_neg ht, henc]
        dsimp only
        by_cases hl : env.lenFails = true
        · rw [if_pos hl, if_pos hl]
        · rw [if_neg hl, if_neg hl]
      · unfold countWithEncoding
        dsimp only
        rw [if_neg ht]
        rcases henc : enc.encode t with _ | toks
        · dsimp only
          by_cases hl : env.lenFails = true
          · exact ⟨1, by rw [if_pos hl]⟩
          · exact ⟨t.length / 4, by rw [if_neg hl]⟩
        · exact ⟨toks.length, rfl⟩

/-- C7, counterexample to the claim as stated: when the model-specific
tokenizer raises `KeyError` and the `cl100k_base` fallback also fails,
`count_tokens` raises `ValueError` to its caller (the path documented in
the function's own docstring). -/
theorem count_tokens_counterexample :
    count_tokens tokEnvBad (some "abc") "modelo-x" =
      Except.error "Não foi possível obter encoding para modelo-x" := rfl

/-- C7 amended: `count_tokens` never raises provided a tokenizer resolves
(the model-specific one or the universal `cl100k_base` fallback); then
empty or `None` text yields 0, an encoder success yields the token count,
an encoder failure falls back to `len(text) // 4`, and 1 when even that
fails.  When both resolutions fail it raises `ValueError`. -/
theorem count_tokens_amended (env : TokEnv) (text : Option String)
    (model_name : String) :
    (resolvedEncoding env model_name = none →
      count_tokens env text model_name =
        Except.error ("Não foi possível obter encoding para " ++ model_name)) ∧
    (∀ enc, resolvedEncoding env model_name = some enc →
      count_tokens env text model_name = countWithEncoding env enc text ∧
      ((text = none ∨ text = some "") →
        count_tokens env text model_name = Except.ok 0) ∧
      (∀ t toks, text = some t → t ≠ "" → enc.encode t = Except.ok toks →
        count_tokens env text model_name = Except.ok toks.length) ∧
      (∀ t, text = some t → t ≠ "" → enc.encode t = Except.error () →
        count_tokens env text model_name =
          Except.ok (if env.lenFails then 1 else t.length / 4)) ∧
      (∃ n, count_tokens env text model_name = Except.ok n)) := by
  rcases h1 : env.encodingForModel model_name with _ | enc1
  · rcases h2 : env.getEncoding "cl100k_base" with _ | enc2
    · constructor
      · intro _
        rw [count_tokens, h1, h2]
      · intro enc henc
        rw [resolvedEncoding, h1, h2] at henc
        simp [Except.toOption] at henc
    · constructor
      · intro hcon
        rw [resolvedEncoding, h1, h2] at hcon
        simp [Except.toOption] at hcon
      · intro enc henc
        rw [resolvedEncoding, h1, h2] at henc
        simp only [Except.toOption] at henc
        have he : enc2 = enc := by simpa using henc
        subst he
        have hrun : count_tokens env text model_name =
            countWithEncoding env enc2 text := by
          rw [count_tokens, h1, h2]
        rcases countWithEncoding_spec env enc2 text with ⟨s1, s2, s3, s4⟩
        exact ⟨hrun, fun h => hrun.trans (s1 h),
          fun t toks ht hne he' => hrun.trans (s2 t toks ht hne he'),
          fun t ht hne he' => hrun.trans (s3 t ht hne he'),
          s4.elim (fun n hn => ⟨n, hrun.trans hn⟩)⟩
  · constructor
    · intro hcon
      rw [resolvedEncoding, h1] at hcon
      exact absurd hcon (by simp)
    · intro enc henc
      rw [resolvedEncoding, h1] at henc
      have he : enc1 = enc := by simpa using henc
      subst he
      have hrun : count_tokens env text model_name =
          countWithEncoding env enc1 text := by
        rw [count_tokens, h1]
      rcases countWithEncoding_spec env enc1 text with ⟨s1, s2, s3, s4⟩
      exact ⟨hrun, fun h => hrun.trans (s1 h),
        fun t toks ht hne he' => hrun.trans (s2 t toks ht hne he'),
        fun t ht hne he' => hrun.trans (s3 t ht hne he'),
        s4.elim (fun n hn => ⟨n, hrun.trans hn⟩)⟩

/-- Witness for the amended C7: with a healthy tokenizer the counter
returns the encoder's token count. -/
theorem count_tokens_amended_witness :
    count_tokens tokEnvGood (some "hi") "gpt-4" = Except.ok 2 := by
  have h := (count_tokens_amended tokEnvGood (some "hi") "gpt-4").2
    ⟨fun _ => Except.ok [7, 9]⟩ rfl
  exact h.2.2.1 "hi" [7, 9] rfl (by decide) rfl

/-- Empty trace has no status writes. -/
@[simp] theorem statusesOf_nil : statusesOf [] = [] := rfl

/-- Status writes of a cons trace. -/
@[simp] theorem statusesOf_cons (o : Op) (l : List Op) :
    statusesOf (o :: l) = (statusKey o).toList ++ statusesOf l := by
  rcases h : statusKey o with _ | s <;>
    simp [statusesOf, List.filterMap_cons, h]

/-- Status writes distribute over trace concatenation. -/
@[simp] theorem statusesOf_append (l₁ l₂ : List Op) :
    statusesOf (l₁ ++ l₂) = statusesOf l₁ ++ statusesOf l₂ := by
  simp [statusesOf]

/-- Empty trace has no progress writes. -/
@[simp] theorem progressWrites_nil : progressWrites [] = [] := rfl

/-- Progress writes of a cons trace. -/
@[simp] theorem progressWrites_cons (o : Op) (l : List Op) :
    progressWrites (o :: l) = (progressKey o).toList ++ progressWrites l := by
  rcases h : progressKey o with _ | q <;>
    simp [progressWrites, List.filterMap_cons, h]

/-- Progress writes distribute over trace concatenation. -/
@[simp] theorem progressWrites_append (l₁ l₂ : List Op) :
    progressWrites (l₁ ++ l₂) = progressWrites l₁ ++ progressWrites l₂ := by
  simp [progressWrites]

/-- Empty trace has no expirations. -/
@[simp] theorem expiresOf_nil : expiresOf [] = [] := rfl

/-- Expirations of a cons trace. -/
@[simp] theorem expiresOf_cons (o : Op) (l : List Op) :
    expiresOf (o :: l) = (expireKey o).toList ++ expiresOf l := by
  rcases h : expireKey o with _ | t <;>
    simp [expiresOf, List.filterMap_cons, h]

/-- Expirations distribute over trace concatenation. -/
@[simp] theorem expiresOf_append (l₁ l₂ : List Op) :
    expiresOf (l₁ ++ l₂) = expiresOf l₁ ++ expiresOf l₂ := by
  simp [expiresOf]

/-- A `filterMap` over a list on which the function is constantly `none`. -/
theorem filterMap_nil_of {α β : Type} (f : α → Option β) (l : List α)
    (h : ∀ a ∈ l, f a = none) : l.filterMap f = [] := by
  induction l with
  | nil => rfl
  | cons x xs ih =>
    rw [List.filterMap_cons, h x (by simp)]
    exact ih (fun a ha => h a (by simp [ha]))

/-- Every op the LangChain block writes is an `hset` that touches neither
`status` nor `progress` nor the TTL. -/
theorem langOps_shape (env : Env) :
    ∀ o ∈ langOps env, ∃ f, o = Op.hset f ∧
      f.lookup "status" = none ∧ f.lookup "progress" = none := by
  intro o ho
  unfold langOps langBlock at ho
  rcases hlc : env.lc with e | n <;> rw [hlc] at ho
  · rcases e with m | m <;>
      rcases h7 : env.e7 with e2 | u <;> rw [h7] at ho <;> dsimp only at ho
    · simp at ho
    · simp only [List.mem_singleton] at ho
      exact ⟨_, ho, by simp, by simp⟩
    · simp at ho
    · simp only [List.mem_singleton] at ho
      exact ⟨_, ho, by simp, by simp⟩
  · dsimp only at ho
    by_cases hn : n ≠ 0
    · rw [if_pos hn] at ho
      rcases h7 : env.e7 with e2 | u <;> rw [h7] at ho <;> dsimp only at ho
      · rcases h7b : env.e7b with e3 | u2 <;> rw [h7b] at ho <;> dsimp only at ho
        · simp at ho
        · simp only [List.mem_singleton] at ho
          exact ⟨_, ho, by simp, by simp⟩
      · simp only [List.mem_singleton] at ho
        exact ⟨_, ho, by simp, by simp⟩
    · rw [if_neg hn] at ho
      simp at ho

/-- The LangChain block writes no status. -/
theorem langOps_statuses (env : Env) : statusesOf (langOps env) = [] :=
  filterMap_nil_of _ _ (fun o ho => by
    obtain ⟨f, rfl, hs, hp⟩ := langOps_shape env o ho
    simpa [statusKey] using hs)

/-- The LangChain block writes no progress. -/
theorem langOps_progress (env : Env) : progressWrites (langOps env) = [] :=
  filterMap_nil_of _ _ (fun o ho => by
    obtain ⟨f, rfl, hs, hp⟩ := langOps_shape env o ho
    simp [progressKey, hp])

/-- The LangChain block sets no TTL. -/
theorem langOps_expires (env : Env) : expiresOf (langOps env) = [] :=
  filterMap_nil_of _ _ (fun o ho => by
    obtain ⟨f, rfl, hs, hp⟩ := langOps_shape env o ho
    simp [expireKey])

/-- The LangChain block never deletes the record. -/
theorem langOps_no_del (env : Env) : Op.del ∉ langOps env := by
  intro hmem
  obtain ⟨f, hf, _, _⟩ := langOps_shape env Op.del hmem
  simp at hf

/-- When every step succeeds, the trace is the concatenation of all step
ops. -/
theorem runSteps_ok_ops : ∀ l : List Step,
    (runSteps l).1 = Except.ok () → (runSteps l).2 = joinOps l := by
  intro l
  induction l with
  | nil =>
    intro _
    rfl
  | cons s rest ih =>
    intro h
    rcases hs : s.1 with e | u
    · rw [runSteps, hs] at h
      simp at h
    · rw [runSteps, hs] at h ⊢
      dsimp only at h ⊢
      rw [ih h]
      simp [joinOps]

/-- The executed trace is always an initial segment of the full op list. -/
theorem runSteps_isPre : ∀ l : List Step,
    ∃ t, joinOps l = (runSteps l).2 ++ t := by
  intro l
  induction l with
  | nil => exact ⟨[], rfl⟩
  | cons s rest ih =>
    rcases ih with ⟨t, ht⟩
    rcases hs : s.1 with e | u
    · refine ⟨joinOps (s :: rest), ?_⟩
      rw [runSteps, hs]
      simp
    · refine ⟨t, ?_⟩
      rw [runSteps, hs]
      dsimp only
      rw [show joinOps (s :: rest) = s.2 ++ joinOps rest by simp [joinOps], ht,
        List.append_assoc]

/-- Statuses of the full `try` block: exactly `processing` then
`completed`, whatever the branch conditions and the LangChain outcome. -/
theorem stepsCore_statuses (env : Env) (b1 b2 b3 : Bool) (tc : Option ℕ)
    (an : Option String) :
    statusesOf (joinOps (stepsCore env b1 b2 b3 tc an)) =
      ["processing", "completed"] := by
  have hl := langOps_statuses env
  cases b1 <;> cases b2 <;> cases b3 <;>
    simp [stepsCore, joinOps, hl, statusKey, List.lookup]

/-- Progress writes of the full `try` block, per branch conditions. -/
theorem stepsCore_progress (env : Env) (b1 b2 b3 : Bool) (tc : Option ℕ)
    (an : Option String) :
    progressWrites (joinOps (stepsCore env b1 b2 b3 tc an)) =
      fullProgress b1 b2 b3 := by
  have hl := langOps_progress env
  cases b1 <;> cases b2 <;> cases b3 <;>
    simp [stepsCore, joinOps, hl, progressKey, fullProgress, List.lookup]

/-- TTL calls of the full `try` block: exactly the completed-TTL call. -/
theorem stepsCore_expires (env : Env) (b1 b2 b3 : Bool) (tc : Option ℕ)
    (an : Option String) :
    expiresOf (joinOps (stepsCore env b1 b2 b3 tc an)) =
      [JOB_TTL_COMPLETED] := by
  have hl := langOps_expires env
  cases b1 <;> cases b2 <;> cases b3 <;>
    simp [stepsCore, joinOps, hl, expireKey]

/-- The `try` block never deletes the record. -/
theorem stepsCore_no_del (env : Env) (b1 b2 b3 : Bool) (tc : Option ℕ)
    (an : Option String) :
    Op.del ∉ joinOps (stepsCore env b1 b2 b3 tc an) := by
  have hl := langOps_no_del env
  cases b1 <;> cases b2 <;> cases b3 <;>
    simp [stepsCore, joinOps] <;> exact hl

/-- The `try` block ends with the temp-file removal attempt. -/
theorem stepsCore_last (env : Env) (b1 b2 b3 : Bool) (tc : Option ℕ)
    (an : Option String) :
    (joinOps (stepsCore env b1 b2 b3 tc an)).getLast? =
      some Op.removeAttempt := by
  cases b1 <;> cases b2 <;> cases b3 <;>
    simp [stepsCore, joinOps, List.getLast?_cons, List.getLast?_append]

/-- The potential progress sequence is monotonically non-decreasing. -/
theorem fullProgress_chain (b1 b2 b3 : Bool) :
    List.Chain' (· ≤ ·) (fullProgress b1 b2 b3) := by
  cases b1 <;> cases b2 <;> cases b3 <;>
    norm_num [fullProgress, progVal, List.chain'_cons]

/-- All potential progress values are non-negative. -/
theorem fullProgress_nonneg (b1 b2 b3 : Bool) :
    ∀ q ∈ fullProgress b1 b2 b3, 0 ≤ q := by
  cases b1 <;> cases b2 <;> cases b3 <;> norm_num [fullProgress, progVal]

/-- The potential progress sequence ends at 1. -/
theorem fullProgress_last (b1 b2 b3 : Bool) :
    (fullProgress b1 b2 b3).getLast? = some 1 := by
  cases b1 <;> cases b2 <;> cases b3 <;> norm_num [fullProgress, progVal]

/-- All potential progress values are among the claimed checkpoints. -/
theorem fullProgress_allowed (b1 b2 b3 : Bool) :
    ∀ q ∈ fullProgress b1 b2 b3,
      q ∈ ([0, 1 / 10, 1 / 5, 7 / 10, 4 / 5, 9 / 10, 19 / 20, 1] : List ℚ) := by
  cases b1 <;> cases b2 <;> cases b3 <;> norm_num [fullProgress, progVal]

/-- The step list of the routine is the core list at its branch values. -/
theorem stepsList_eq (env : Env) (p : Params) :
    stepsList env p =
      stepsCore env (llmsOf env) (anCondOf env p) p.toLangchain
        (tokenCountOf env) (analysisOf env p) := rfl

/-- When the `try` block runs to completion, the routine's trace is the
full op list of the block. -/
theorem process_document_ok (env : Env) (p : Params)
    (hok : (runSteps (stepsList env p)).1 = Except.ok ()) :
    process_document env p = joinOps (stepsList env p) := by
  have hops := runSteps_ok_ops (stepsList env p) hok
  unfold process_document
  rcases hrs : runSteps (stepsList env p) with ⟨r, ops⟩
  rw [hrs] at hok hops
  have hr : r = Except.ok () := hok
  subst hr
  exact hops

/-- When the `try` block raises, the routine's trace is the executed
part followed by the failure record, the failed TTL, and the removal
attempt. -/
theorem process_document_error (env : Env) (p : Params) (e : String)
    (he : (runSteps (stepsList env p)).1 = Except.error e) :
    process_document env p =
      (runSteps (stepsList env p)).2 ++
        [Op.hset [("status", "failed"), ("error", e)],
         Op.expire JOB_TTL_FAILED, Op.removeAttempt] := by
  unfold process_document
  rcases hrs : runSteps (stepsList env p) with ⟨r, ops⟩
  rw [hrs] at he
  have hr : r = Except.error e := he
  subst hr
  rfl

/-- C1: every exception raised inside the background routine is caught:
the routine totalises into a trace that, on any failure, ends with the
`status=failed` write carrying the exception message, the failed-TTL
call, and a temp-file removal attempt; on success the trace also ends
with a removal attempt.  Nothing re-raises: both cases produce a trace. -/
theorem process_document_catches_and_cleans (env : Env) (p : Params) :
    (∀ e, (runSteps (stepsList env p)).1 = Except.error e →
        process_document env p =
          (runSteps (stepsList env p)).2 ++
            [Op.hset [("status", "failed"), ("error", e)],
             Op.expire JOB_TTL_FAILED, Op.removeAttempt]) ∧
    ((runSteps (stepsList env p)).1 = Except.ok () →
        process_document env p = joinOps (stepsList env p) ∧
        (process_document env p).getLast? = some Op.removeAttempt) := by
  constructor
  · intro e he
    exact process_document_error env p e he
  · intro hok
    have hpd := process_document_ok env p hok
    refine ⟨hpd, ?_⟩
    rw [hpd, stepsList_eq]
    exact stepsCore_last env _ _ _ _ _

/-- Witness for C1: a failing conversion yields the failed record, the
failed TTL, and the cleanup attempt. -/
theorem process_document_catches_and_cleans_witness :
    process_document envFail pMin =
      (runSteps (stepsList envFail pMin)).2 ++
        [Op.hset [("status", "failed"), ("error", "conversion failed")],
         Op.expire JOB_TTL_FAILED, Op.removeAttempt] :=
  (process_document_catches_and_cleans envFail pMin).1 "conversion failed" rfl

/-- The creation write sets status `created`. -/
theorem create_ops_statuses (fn ca ps : String) :
    statusesOf (create_conversion_job_ops fn ca ps) = ["created"] := by
  simp [create_conversion_job_ops, statusKey, List.lookup]

/-- The creation write sets progress 0. -/
theorem create_ops_progress (fn ca ps : String) :
    progressWrites (create_conversion_job_ops fn ca ps) = [0] := by
  rw [show progressWrites (create_conversion_job_ops fn ca ps) =
    [progVal "0"] from rfl]
  norm_num [progVal]

/-- Creation sets exactly the processing TTL. -/
theorem create_ops_expires (fn ca ps : String) :
    expiresOf (create_conversion_job_ops fn ca ps) = [JOB_TTL_PROCESSING] := by
  simp [create_conversion_job_ops, expireKey]

/-- Creation never deletes. -/
theorem create_ops_no_del (fn ca ps : String) :
    Op.del ∉ create_conversion_job_ops fn ca ps := by
  simp [create_conversion_job_ops]

/-- The failure handler writes status `failed` and nothing else. -/
theorem handler_statuses (e : String) :
    statusesOf [Op.hset [("status", "failed"), ("error", e)],
      Op.expire JOB_TTL_FAILED, Op.removeAttempt] = ["failed"] := by
  simp [statusKey, List.lookup]

/-- The failure handler writes no progress. -/
theorem handler_progress (e : String) :
    progressWrites [Op.hset [("status", "failed"), ("error", e)],
      Op.expire JOB_TTL_FAILED, Op.removeAttempt] = [] := by
  simp [progressKey, List.lookup]

/-- C2: TTL policy is state-dependent — creation sets
`JOB_TTL_PROCESSING`, a successful run ends with exactly the
processing-then-completed TTL calls, a failed run ends with the failed
write followed by `JOB_TTL_FAILED`, and the orchestrator never issues an
explicit record deletion. -/
theorem ttl_policy_state_dependent (env : Env) (p : Params)
    (fn ca ps : String) :
    expiresOf (create_conversion_job_ops fn ca ps) = [JOB_TTL_PROCESSING] ∧
    ((runSteps (stepsList env p)).1 = Except.ok () →
      expiresOf (jobTrace env p fn ca ps) =
        [JOB_TTL_PROCESSING, JOB_TTL_COMPLETED]) ∧
    (∀ e, (runSteps (stepsList env p)).1 = Except.error e →
      ∃ pre, jobTrace env p fn ca ps =
        pre ++ [Op.hset [("status", "failed"), ("error", e)],
                Op.expire JOB_TTL_FAILED, Op.removeAttempt]) ∧
    Op.del ∉ jobTrace env p fn ca ps := by
  refine ⟨create_ops_expires fn ca ps, ?_, ?_, ?_⟩
  · intro hok
    rw [jobTrace, expiresOf_append, process_document_ok env p hok,
      stepsList_eq, stepsCore_expires, create_ops_expires]
    rfl
  · intro e he
    refine ⟨create_conversion_job_ops fn ca ps ++
      (runSteps (stepsList env p)).2, ?_⟩
    rw [jobTrace, process_document_error env p e he, List.append_assoc]
  · intro hmem
    rw [jobTrace] at hmem
    rcases List.mem_append.mp hmem with hmem1 | hmem2
    · exact create_ops_no_del fn ca ps hmem1
    · rcases hrs : (runSteps (stepsList env p)).1 with e | u
      · rw [process_document_error env p e hrs] at hmem2
        rcases List.mem_append.mp hmem2 with hmem3 | hmem4
        · rcases runSteps_isPre (stepsList env p) with ⟨t, ht⟩
          have : Op.del ∈ joinOps (stepsList env p) := by
            rw [ht]
            exact List.mem_append_left t hmem3
          rw [stepsList_eq] at this
          exact stepsCore_no_del env _ _ _ _ _ this
        · simp at hmem4
      · cases u
        rw [process_document_ok env p hrs] at hmem2
        rw [stepsList_eq] at hmem2
        exact stepsCore_no_del env _ _ _ _ _ hmem2

/-- Witness for C2: on a fully successful run the store receives exactly
the processing TTL at creation and the completed TTL at the terminal
transition. -/
theorem ttl_policy_state_dependent_witness :
    expiresOf (jobTrace envOK pFull "f.pdf" "0" "params") =
      [JOB_TTL_PROCESSING, JOB_TTL_COMPLETED] :=
  (ttl_policy_state_dependent envOK pFull "f.pdf" "0" "params").2.1 rfl

/-- A list decomposing a two-element list from the left is one of its
three initial segments. -/
theorem eq_append_pair {α : Type} (a b : α) (L t : List α)
    (h : [a, b] = L ++ t) : L = [] ∨ L = [a] ∨ L = [a, b] := by
  rcases L with _ | ⟨x, _ | ⟨y, ys⟩⟩
  · exact Or.inl rfl
  · injection h with h1 h2
    exact Or.inr (Or.inl (by rw [h1]))
  · injection h with h1 h2
    injection h2 with h3 h4
    rcases ys with _ | ⟨z, zs⟩
    · exact Or.inr (Or.inr (by rw [h1, h3]))
    · exfalso
      simp at h4

/-- C3, counterexample to the claim as stated: when every call succeeds
up to the completed write and then the `expire(JOB_TTL_COMPLETED)` call
raises, the `except` handler overwrites the record: the status sequence
is created, processing, completed, failed — a write moves the record
away from `completed`, which the claimed state machine forbids. -/
theorem status_machine_counterexample :
    ¬ (List.Chain' (· ≤ ·)
        (progressWrites (jobTrace envE10 pMin "f.pdf" "0" "params")) ∧
       statusesOf (jobTrace envE10 pMin "f.pdf" "0" "params") ∈
         [["created", "processing", "completed"],
          ["created", "processing", "failed"]]) := by
  intro h
  have h2 := h.2
  rw [show statusesOf (jobTrace envE10 pMin "f.pdf" "0" "params") =
      ["created", "processing", "completed", "failed"] from rfl] at h2
  simp at h2

/-- C3 amended: progress writes are monotonically non-decreasing and stay
among the claimed checkpoints; the status sequence follows
created → processing → completed/failed, except that the record can go
created → failed directly when the initial processing write itself
raises, and a completed record can be overwritten to failed when a later
call of the routine (the TTL extension) raises; a failed record is never
left.  On a fully successful run the statuses are exactly
created, processing, completed and progress ends at 1.0. -/
theorem status_machine_amended (env : Env) (p : Params) (fn ca ps : String) :
    List.Chain' (· ≤ ·) (progressWrites (jobTrace env p fn ca ps)) ∧
    (∀ q ∈ progressWrites (jobTrace env p fn ca ps),
      q ∈ ([0, 1 / 10, 1 / 5, 7 / 10, 4 / 5, 9 / 10, 19 / 20, 1] : List ℚ)) ∧
    statusesOf (jobTrace env p fn ca ps) ∈ reachableStatusPaths ∧
    ((runSteps (stepsList env p)).1 = Except.ok () →
      statusesOf (jobTrace env p fn ca ps) =
        ["created", "processing", "completed"] ∧
      (progressWrites (jobTrace env p fn ca ps)).getLast? = some 1) := by
  rcases hrs : (runSteps (stepsList env p)).1 with e | u
  · have hpd := process_document_error env p e hrs
    obtain ⟨t, ht⟩ := runSteps_isPre (stepsList env p)
    have hfull : progressWrites (joinOps (stepsList env p)) =
        fullProgress (llmsOf env) (anCondOf env p) p.toLangchain := by
      rw [stepsList_eq]
      exact stepsCore_progress env _ _ _ _ _
    have hprogsplit : fullProgress (llmsOf env) (anCondOf env p) p.toLangchain =
        progressWrites (runSteps (stepsList env p)).2 ++ progressWrites t := by
      rw [← hfull, ht, progressWrites_append]
    have hstat : statusesOf (joinOps (stepsList env p)) =
        ["processing", "completed"] := by
      rw [stepsList_eq]
      exact stepsCore_statuses env _ _ _ _ _
    have hstatsplit : ["processing", "completed"] =
        statusesOf (runSteps (stepsList env p)).2 ++ statusesOf t := by
      rw [← hstat, ht, statusesOf_append]
    have hjt : jobTrace env p fn ca ps =
        create_conversion_job_ops fn ca ps ++
          ((runSteps (stepsList env p)).2 ++
            [Op.hset [("status", "failed"), ("error", e)],
             Op.expire JOB_TTL_FAILED, Op.removeAttempt]) := by
      rw [jobTrace, hpd]
    have hPW : progressWrites (jobTrace env p fn ca ps) =
        0 :: progressWrites (runSteps (stepsList env p)).2 := by
      rw [hjt, progressWrites_append, progressWrites_append,
        create_ops_progress, handler_progress]
      simp
    have hST : statusesOf (jobTrace env p fn ca ps) =
        "created" :: (statusesOf (runSteps (stepsList env p)).2 ++ ["failed"]) := by
      rw [hjt, statusesOf_append, statusesOf_append, create_ops_statuses,
        handler_statuses]
      simp
    refine ⟨?_, ?_, ?_, ?_⟩
    · rw [hPW, List.chain'_cons']
      constructor
      · intro y hy
        have hymem : y ∈ progressWrites (runSteps (stepsList env p)).2 :=
          List.mem_of_mem_head? hy
        have hyf : y ∈ fullProgress (llmsOf env) (anCondOf env p) p.toLangchain := by
          rw [hprogsplit]
          exact List.mem_append_left _ hymem
        exact fullProgress_nonneg _ _ _ y hyf
      · have hsub : List.Sublist
            (progressWrites (runSteps (stepsList env p)).2)
            (fullProgress (llmsOf env) (anCondOf env p) p.toLangchain) := by
          rw [hprogsplit]
          exact List.sublist_append_left _ _
        exact (fullProgress_chain _ _ _).sublist hsub
    · rw [hPW]
      intro q hq
      rcases List.mem_cons.mp hq with rfl | hq'
      · norm_num
      · have hqf : q ∈ fullProgress (llmsOf env) (anCondOf env p) p.toLangchain := by
          rw [hprogsplit]
          exact List.mem_append_left _ hq'
        exact fullProgress_allowed _ _ _ q hqf
    · rw [hST]
      rcases eq_append_pair "processing" "completed"
          (statusesOf (runSteps (stepsList env p)).2) (statusesOf t)
          hstatsplit with h0 | h1 | h2
      · rw [h0]
        simp [reachableStatusPaths]
      · rw [h1]
        simp [reachableStatusPaths]
      · rw [h2]
        simp [reachableStatusPaths]
    · intro hok
      exact absurd hok (by simp)
  · cases u
    have hpd := process_document_ok env p hrs
    have hjt : jobTrace env p fn ca ps =
        create_conversion_job_ops fn ca ps ++ joinOps (stepsList env p) := by
      rw [jobTrace, hpd]
    have hPW : progressWrites (jobTrace env p fn ca ps) =
        0 :: fullProgress (llmsOf env) (anCondOf env p) p.toLangchain := by
      rw [hjt, progressWrites_append, create_ops_progress, stepsList_eq,
        stepsCore_progress]
      simp
    have hST : statusesOf (jobTrace env p fn ca ps) =
        ["created", "processing", "completed"] := by
      rw [hjt, statusesOf_append, create_ops_statuses, stepsList_eq,
        stepsCore_statuses]
      rfl
    refine ⟨?_, ?_, ?_, fun _ => ⟨hST, ?_⟩⟩
    · rw [hPW, List.chain'_cons']
      constructor
      · intro y hy
        exact fullProgress_nonneg _ _ _ y (List.mem_of_mem_head? hy)
      · exact fullProgress_chain _ _ _
    · rw [hPW]
      intro q hq
      rcases List.mem_cons.mp hq with rfl | hq'
      · norm_num
      · exact fullProgress_allowed _ _ _ q hq'
    · rw [hST]
      simp [reachableStatusPaths]
    · rw [hPW, show (0 : ℚ) :: fullProgress (llmsOf env) (anCondOf env p)
          p.toLangchain =
        [0] ++ fullProgress (llmsOf env) (anCondOf env p) p.toLangchain
          from rfl,
        List.getLast?_append, fullProgress_last]
      rfl

/-- Witness for the amended C3: on a fully successful run the record goes
created → processing → completed and progress ends at 1.0. -/
theorem status_machine_amended_witness :
    statusesOf (jobTrace envOK pFull "f.pdf" "0" "params") =
      ["created", "processing", "completed"] ∧
    (progressWrites (jobTrace envOK pFull "f.pdf" "0" "params")).getLast? =
      some 1 :=
  (status_machine_amended envOK pFull "f.pdf" "0" "params").2.2.2 rfl
